/-
Verification of the VoidFinder core functions (`voidfinder_functions.py`)
against their natural-language specification.

The Python source is shallowly embedded in Lean 4:
* exact rational / integer arithmetic (`ℚ`, `ℤ`) models the numeric code
  where only field operations and integer casts occur;
* real numbers (`ℝ`) model the trigonometric pipeline of the survey-mask
  containment tests (`arctan`, `arcsin`, `sqrt`, `π`);
* Python's `int(...)` cast (truncation toward zero) is modelled explicitly,
  distinct from mathematical `floor`;
* operations that raise at runtime (NaN flowing into `int(...)`,
  out-of-bounds numpy indexing) are modelled with `Option`, `none`
  standing for the raised exception.
-/
import Mathlib

namespace VoidFinder

/-! ## Truncation toward zero

Python's `int(x)` and numpy's `.astype(int)` truncate toward zero. -/

/-- Truncation toward zero on `ℚ`, the semantics of numpy's `.astype(int)`. -/
def ratTrunc (q : ℚ) : ℤ := if 0 ≤ q then ⌊q⌋ else -⌊-q⌋

theorem ratTrunc_of_nonneg {q : ℚ} (h : 0 ≤ q) : ratTrunc q = ⌊q⌋ := if_pos h

/-! ## GridIndex: `mesh_galaxies` and `mesh_galaxies_dict`

Both functions convert galaxy coordinates to integer cell indices with the
same formula (`voidfinder_functions.py` lines 65 and 91):
`((galaxy_coords - coord_min)/grid_side_length).astype(int)`, computed
componentwise on the three coordinates.  Line 65 routes through the
`table_functions` helpers (`subtract_row`, `table_divide`,
`table_dtype_cast`), whose module is not part of the visible source; their
componentwise subtract/divide/int-cast semantics is modelled from the spec
(§4.1: "each wall galaxy is assigned to the GridCell
`floor((position - coord_min) / cell_edge_length)`") and matches the plain
numpy expression of line 91. -/

/-- The grid cell assigned to one galaxy (shared index formula of
`mesh_galaxies` line 65 and `mesh_galaxies_dict` line 91). -/
def galaxyCell (p cmin : ℚ × ℚ × ℚ) (len : ℚ) : ℤ × ℤ × ℤ :=
  (ratTrunc ((p.1 - cmin.1) / len),
   ratTrunc ((p.2.1 - cmin.2.1) / len),
   ratTrunc ((p.2.2 - cmin.2.2) / len))

/-- `mesh_indices` (lines 65 / 91): the cell index of every galaxy. -/
def meshIndices (coords : List (ℚ × ℚ × ℚ)) (cmin : ℚ × ℚ × ℚ) (len : ℚ) :
    List (ℤ × ℤ × ℤ) :=
  coords.map (fun p => galaxyCell p cmin len)

/-- `mesh_galaxies` (lines 20-79).  The 3-D count array `ngal` is modelled
as a function from cell index to count.  Note: in the source the
`chainlist` / `linklist` bookkeeping (lines 58-76) is commented out and the
function returns only `ngal` (line 79). -/
def mesh_galaxies (coords : List (ℚ × ℚ × ℚ)) (cmin : ℚ × ℚ × ℚ) (len : ℚ) :
    (ℤ × ℤ × ℤ) → ℕ :=
  (meshIndices coords cmin len).foldl
    (fun ngal idx => fun k => if k = idx then ngal k + 1 else ngal k)
    (fun _ => 0)

/-- `mesh_galaxies_dict` (lines 85-108).  The dictionary of occupied cell
IDs is modelled as its membership function. -/
def mesh_galaxies_dict (coords : List (ℚ × ℚ × ℚ)) (cmin : ℚ × ℚ × ℚ)
    (len : ℚ) : (ℤ × ℤ × ℤ) → Bool :=
  (meshIndices coords cmin len).foldl
    (fun d idx => fun k => if k = idx then true else d k)
    (fun _ => false)

/-! ## HoleGrowthEngine acceptance (spec §4.3, §4.4)

The hole-growth and maximal-sphere code is not among the visible source
files; only this module of helper functions is.  The acceptance condition
is therefore modelled from the spec. -/

/-- Squared Euclidean distance between two points (squares avoid the
irrational square root; `r ≤ dist` iff `r² ≤ dist²` for nonnegatives). -/
def distSq (a b : ℚ × ℚ × ℚ) : ℚ :=
  (a.1 - b.1) ^ 2 + (a.2.1 - b.2.1) ^ 2 + (a.2.2 - b.2.2) ^ 2

/-- Modelled from the spec: `HoleGrowthEngine.grow` final state (§4.3,
"The final sphere's radius equals the distance from its final center to the
nearest wall galaxy at that point").  The growth iteration itself is not in
the visible source; only the final sphere matters here: its squared radius
is the least squared distance from the final center to a wall galaxy, and
`none` models the NotFound rejection for an empty wall set. -/
def growSphere (walls : List (ℚ × ℚ × ℚ)) (c : ℚ × ℚ × ℚ) : Option ℚ :=
  (walls.map (distSq c)).min?

/-- The sphere of squared radius `rsq` around `c` lies entirely inside the
mask (every point of the closed ball is accepted). -/
def SphereInMask (mask : ℚ × ℚ × ℚ → Bool) (c : ℚ × ℚ × ℚ) (rsq : ℚ) : Prop :=
  ∀ p, distSq c p ≤ rsq → mask p = true

/-- Modelled from the spec: a sphere accepted by the pipeline (§4.3 reject
"if the trial center or the current sphere already leaves the survey mask";
§4.4's reducer only discards candidates, so every maximal sphere is an
accepted candidate). -/
def acceptedSphere (mask : ℚ × ℚ × ℚ → Bool) (walls : List (ℚ × ℚ × ℚ))
    (c : ℚ × ℚ × ℚ) (rsq : ℚ) : Prop :=
  growSphere walls c = some rsq ∧ SphereInMask mask c rsq

/-! ## Theorems for the GridIndex / growth claims -/

/-- Fold-insertion into the cell dictionary never unsets a key. -/
theorem dict_foldl_mem {l : List (ℤ × ℤ × ℤ)} {k : ℤ × ℤ × ℤ}
    (d : (ℤ × ℤ × ℤ) → Bool) (hk : k ∈ l ∨ d k = true) :
    (l.foldl (fun d idx => fun k => if k = idx then true else d k) d) k = true := by
  induction l generalizing d with
  | nil => simpa using hk
  | cons a l ih =>
    refine ih _ ?_
    rcases hk with hk | hk
    · rcases List.mem_cons.1 hk with h | h
      · right; simp [h]
      · left; exact h
    · right; simp only []
      split <;> simp [hk]

/-- C1.  For every wall-galaxy set and every sphere accepted by the
pipeline (modelled from spec §4.3/§4.4: squared radius is the minimum
squared distance from the center to a wall galaxy, and acceptance requires
the sphere to lie inside the mask), the sphere's open interior contains no
wall galaxy — the (squared) distance from the center to every wall galaxy
is at least the sphere's (squared) radius — and the sphere lies entirely
within the survey mask. -/
theorem accepted_sphere_empty_and_in_mask
    (mask : ℚ × ℚ × ℚ → Bool) (walls : List (ℚ × ℚ × ℚ))
    (c : ℚ × ℚ × ℚ) (rsq : ℚ)
    (h : acceptedSphere mask walls c rsq) :
    (∀ g ∈ walls, rsq ≤ distSq c g) ∧ SphereInMask mask c rsq := by
  obtain ⟨hmin, hmask⟩ := h
  refine ⟨fun g hg => ?_, hmask⟩
  have hle := (List.le_min?_iff (fun a b c => le_min_iff) hmin).1 (le_refl rsq)
  exact hle _ (List.mem_map_of_mem (distSq c) hg)

/-- Witness for C1: the spec's own concrete scenario (§8) — three wall
galaxies at (10,0,0), (-10,0,0), (0,10,0), a mask accepting the ball of
radius 50 around the origin, trial center at the origin: the accepted
sphere has squared radius 100 and satisfies the invariant. -/
theorem accepted_sphere_empty_and_in_mask_witness :
    acceptedSphere (fun p => decide (p.1 ^ 2 + p.2.1 ^ 2 + p.2.2 ^ 2 ≤ 2500))
      [(10, 0, 0), (-10, 0, 0), (0, 10, 0)] (0, 0, 0) 100 ∧
    ((∀ g ∈ ([(10, 0, 0), (-10, 0, 0), (0, 10, 0)] : List (ℚ × ℚ × ℚ)),
        100 ≤ distSq (0, 0, 0) g) ∧
      SphereInMask (fun p => decide (p.1 ^ 2 + p.2.1 ^ 2 + p.2.2 ^ 2 ≤ 2500))
        (0, 0, 0) 100) := by
  have hacc : acceptedSphere
      (fun p => decide (p.1 ^ 2 + p.2.1 ^ 2 + p.2.2 ^ 2 ≤ 2500))
      [(10, 0, 0), (-10, 0, 0), (0, 10, 0)] (0, 0, 0) 100 := by
    constructor
    · have hmap : ([(10, 0, 0), (-10, 0, 0), (0, 10, 0)] :
          List (ℚ × ℚ × ℚ)).map (distSq (0, 0, 0)) = [100, 100, 100] := by
        norm_num [distSq]
      rw [growSphere, hmap, List.min?_cons']
      simp [min_self]
    · intro p hp
      unfold distSq at hp
      simp only [decide_eq_true_eq]
      ring_nf at hp ⊢
      linarith [hp]
  exact ⟨hacc, accepted_sphere_empty_and_in_mask _ _ _ _ hacc⟩

/-- C6.  Every galaxy whose coordinates are componentwise at least
`coord_min` is assigned (by the shared index computation of
`mesh_galaxies` and `mesh_galaxies_dict`) to the cell
`floor((position - coord_min) / cell_edge_length)` in each axis, and that
cell is marked occupied in the `mesh_galaxies_dict` dictionary. -/
theorem meshIndices_floor (coords : List (ℚ × ℚ × ℚ)) (cmin : ℚ × ℚ × ℚ)
    (len : ℚ) (i : ℕ) (p : ℚ × ℚ × ℚ)
    (hget : coords.get? i = some p) (hlen : 0 < len)
    (h1 : cmin.1 ≤ p.1) (h2 : cmin.2.1 ≤ p.2.1) (h3 : cmin.2.2 ≤ p.2.2) :
    (meshIndices coords cmin len).get? i =
      some (⌊(p.1 - cmin.1) / len⌋, ⌊(p.2.1 - cmin.2.1) / len⌋,
            ⌊(p.2.2 - cmin.2.2) / len⌋) ∧
    mesh_galaxies_dict coords cmin len
      (⌊(p.1 - cmin.1) / len⌋, ⌊(p.2.1 - cmin.2.1) / len⌋,
       ⌊(p.2.2 - cmin.2.2) / len⌋) = true := by
  have hcell : galaxyCell p cmin len =
      (⌊(p.1 - cmin.1) / len⌋, ⌊(p.2.1 - cmin.2.1) / len⌋,
       ⌊(p.2.2 - cmin.2.2) / len⌋) := by
    unfold galaxyCell
    rw [ratTrunc_of_nonneg (div_nonneg (by linarith) hlen.le),
        ratTrunc_of_nonneg (div_nonneg (by linarith) hlen.le),
        ratTrunc_of_nonneg (div_nonneg (by linarith) hlen.le)]
  constructor
  · rw [meshIndices, List.get?_map, hget, Option.map_some']
    exact congrArg some hcell
  · unfold mesh_galaxies_dict
    refine dict_foldl_mem _ (Or.inl ?_)
    rw [← hcell]
    exact List.mem_map_of_mem _ (List.get?_mem hget)

/-- Witness for C6: a galaxy at (3,5,7) with `coord_min = (1,1,1)` and
cell edge 2 lands in cell (1,2,3). -/
theorem meshIndices_floor_witness :
    (meshIndices [((3 : ℚ), 5, 7)] (1, 1, 1) 2).get? 0 =
        some (⌊((3 : ℚ) - 1) / 2⌋, ⌊((5 : ℚ) - 1) / 2⌋, ⌊((7 : ℚ) - 1) / 2⌋) ∧
      mesh_galaxies_dict [((3 : ℚ), 5, 7)] (1, 1, 1) 2
        (⌊((3 : ℚ) - 1) / 2⌋, ⌊((5 : ℚ) - 1) / 2⌋, ⌊((7 : ℚ) - 1) / 2⌋) = true :=
  meshIndices_floor [((3 : ℚ), 5, 7)] (1, 1, 1) 2 0 (3, 5, 7)
    rfl (by norm_num) (by norm_num) (by norm_num) (by norm_num)

/-- C7 (code bug).  `mesh_galaxies` is documented (and claimed) to return,
besides the per-cell counts, the `chainlist` / `linklist` linked-chain
records of cell membership; in the source those computations (lines 58-76)
are commented out and the function returns only the count array `ngal`
(line 79).  Evaluating the embedding of what the code actually returns at
a one-galaxy input: the result is just the count function, counting the
single galaxy in cell (0,0,0). -/
theorem mesh_galaxies_returns_only_counts :
    mesh_galaxies [((0 : ℚ), 0, 0)] (0, 0, 0) 1 (0, 0, 0) = 1 ∧
      mesh_galaxies [((0 : ℚ), 0, 0)] (0, 0, 0) 1 (5, 5, 5) = 0 := by
  constructor <;> norm_num [mesh_galaxies, meshIndices, galaxyCell, ratTrunc]

/-! ## SurveyMask construction: `build_mask` (lines 115-147)

A 2-D boolean numpy array is modelled as its dimensions together with its
contents as a total function `ℤ → ℤ → Bool`; in-bounds assignment is a
pointwise functional update.  (numpy's wraparound of negative indices is
not modelled; the theorems below are stated for in-range indices.)
The module-level constants `maskra`, `maskdec` referenced by `build_mask`
are absent from the visible source, so they are taken as parameters,
modelled from the spec (§4.2 `base_ra_resolution` / `base_dec_resolution`).
`dec_offset = -90` is line 11 of the source. -/

def dec_offset : ℤ := -90

/-- A 2-D boolean array: row/column counts plus contents. -/
structure Grid where
  rows : ℕ
  cols : ℕ
  val : ℤ → ℤ → Bool

/-- `np.zeros((r, c), dtype=bool)`. -/
def zeroGrid (r c : ℕ) : Grid := ⟨r, c, fun _ _ => false⟩

/-- numpy index resolution for an axis of length `len`: in-range indices
are used as given, negative indices with `-len ≤ a < 0` wrap to
`a + len`, anything else raises `IndexError` (`none`). -/
def npIndex (len : ℕ) (a : ℤ) : Option ℤ :=
  if 0 ≤ a ∧ a < (len : ℤ) then some a
  else if -(len : ℤ) ≤ a ∧ a < 0 then some (a + (len : ℤ))
  else none

/-- `g[a][b] = True` with numpy write semantics: bounds-checked (with
negative-index wraparound); an out-of-range index raises (`none`). -/
def gridSet (g : Grid) (a b : ℤ) : Option Grid :=
  match npIndex g.rows a, npIndex g.cols b with
  | some x, some y =>
    some { g with val := fun u v => if u = x ∧ v = y then true else g.val u v }
  | _, _ => none

/-- The inner loop of `build_mask` (lines 140-142) for shell `i` (1-based):
set `mask[i-1][file[i-1][0][j]][file[i-1][1][j] - i*dec_offset]` for each
`j` in order, starting from the zero array of shape
`(i*maskra, i*maskdec)`; the first out-of-range bin aborts with the raised
`IndexError` (`none`). -/
def build_shell (maskra maskdec : ℕ) (i : ℕ) (ras decs : List ℤ) :
    Option Grid :=
  (ras.zip decs).foldlM
    (fun g rd => gridSet g rd.1 (rd.2 - (i : ℤ) * dec_offset))
    (zeroGrid (i * maskra) (i * maskdec))

/-- Modelled from the spec: `maskra`, `maskdec` (base RA/Dec resolutions,
spec §4.2) are module-level constants not present in the visible source
and are passed as the first two parameters.  The rest is `build_mask`
(lines 115-147): one shell per entry of `file`, shell index `i` running
from 1 to `len(file)`; an exception raised while filling any shell
propagates (`none`). -/
def build_mask (maskra maskdec : ℕ) (file : List (List ℤ × List ℤ)) :
    Option (List Grid) :=
  file.enum.mapM (fun ks => build_shell maskra maskdec (ks.1 + 1) ks.2.1 ks.2.2)

theorem npIndex_of_range {len : ℕ} {a : ℤ} (h : 0 ≤ a ∧ a < (len : ℤ)) :
    npIndex len a = some a := by
  unfold npIndex
  rw [if_pos h]

theorem gridSet_of_range (g : Grid) (a b : ℤ)
    (ha : 0 ≤ a ∧ a < (g.rows : ℤ)) (hb : 0 ≤ b ∧ b < (g.cols : ℤ)) :
    gridSet g a b =
      some { g with
        val := fun u v => if u = a ∧ v = b then true else g.val u v } := by
  unfold gridSet
  rw [npIndex_of_range ha, npIndex_of_range hb]

theorem build_shell_foldlM (l : List (ℤ × ℤ)) (i : ℤ) (g : Grid)
    (hin : ∀ rd ∈ l, (0 ≤ rd.1 ∧ rd.1 < (g.rows : ℤ)) ∧
      (0 ≤ rd.2 - i * dec_offset ∧ rd.2 - i * dec_offset < (g.cols : ℤ))) :
    ∃ gf, l.foldlM (fun g rd => gridSet g rd.1 (rd.2 - i * dec_offset)) g =
        some gf ∧
      gf.rows = g.rows ∧ gf.cols = g.cols ∧
      ∀ a b : ℤ, (gf.val a b = true ↔
        (∃ rd ∈ l, rd.1 = a ∧ rd.2 - i * dec_offset = b) ∨
          g.val a b = true) := by
  induction l generalizing g with
  | nil => exact ⟨g, rfl, rfl, rfl, fun a b => by simp⟩
  | cons x l ih =>
    have hx := hin x (List.mem_cons_self x l)
    have hset : gridSet g x.1 (x.2 - i * dec_offset) =
        some { g with val := fun u v =>
          if u = x.1 ∧ v = x.2 - i * dec_offset then true else g.val u v } :=
      gridSet_of_range g _ _ hx.1 hx.2
    obtain ⟨gf, hfold, hrows, hcols, hval⟩ :=
      ih { g with val := fun u v =>
          if u = x.1 ∧ v = x.2 - i * dec_offset then true else g.val u v }
        (fun rd hrd => hin rd (List.mem_cons_of_mem x hrd))
    refine ⟨gf, ?_, hrows, hcols, ?_⟩
    · rw [List.foldlM_cons, hset]
      exact hfold
    · intro a b
      rw [hval a b]
      have hU : ((if a = x.1 ∧ b = x.2 - i * dec_offset then true
          else g.val a b) = true ↔
          (a = x.1 ∧ b = x.2 - i * dec_offset) ∨ g.val a b = true) := by
        by_cases h : a = x.1 ∧ b = x.2 - i * dec_offset <;> simp [h]
      rw [show ({ g with val := fun u v =>
          if u = x.1 ∧ v = x.2 - i * dec_offset then true else g.val u v } :
            Grid).val a b =
          (if a = x.1 ∧ b = x.2 - i * dec_offset then true else g.val a b)
        from rfl, hU]
      simp only [List.mem_cons]
      constructor
      · rintro (⟨rd, hrd, h1, h2⟩ | ⟨h1, h2⟩ | h)
        · exact Or.inl ⟨rd, Or.inr hrd, h1, h2⟩
        · exact Or.inl ⟨x, Or.inl rfl, h1.symm, h2.symm⟩
        · exact Or.inr h
      · rintro (⟨rd, rfl | hrd, h1, h2⟩ | h)
        · exact Or.inr (Or.inl ⟨h1.symm, h2.symm⟩)
        · exact Or.inl ⟨rd, hrd, h1, h2⟩
        · exact Or.inr (Or.inr h)

theorem build_shell_spec (R D i : ℕ) (ras decs : List ℤ)
    (hin : ∀ rd ∈ ras.zip decs,
      (0 ≤ rd.1 ∧ rd.1 < ((i * R : ℕ) : ℤ)) ∧
      (0 ≤ rd.2 - (i : ℤ) * dec_offset ∧
        rd.2 - (i : ℤ) * dec_offset < ((i * D : ℕ) : ℤ))) :
    ∃ g, build_shell R D i ras decs = some g ∧
      g.rows = i * R ∧ g.cols = i * D ∧
      ∀ a b : ℤ, (g.val a b = true ↔
        ∃ rd ∈ ras.zip decs, rd.1 = a ∧ rd.2 - (i : ℤ) * dec_offset = b) := by
  obtain ⟨g, hfold, hrows, hcols, hval⟩ :=
    build_shell_foldlM (ras.zip decs) (i : ℤ) (zeroGrid (i * R) (i * D)) hin
  refine ⟨g, hfold, hrows, hcols, fun a b => ?_⟩
  rw [hval a b]
  simp [zeroGrid]

/-- If `mapM` over `Option` succeeds, each output entry is the image of
the corresponding input entry. -/
theorem mapM_option_getElem {α β : Type} (f : α → Option β) :
    ∀ (l : List α) (ys : List β), l.mapM f = some ys →
      ∀ (k : ℕ) (x : α), l[k]? = some x → ys[k]? = f x := by
  intro l
  induction l with
  | nil =>
    intro ys h k x hk
    simp at hk
  | cons a l ih =>
    intro ys h k x hk
    rw [List.mapM_cons] at h
    cases hfa : f a with
    | none => rw [hfa] at h; simp at h
    | some b =>
      rw [hfa] at h
      cases hml : l.mapM f with
      | none => rw [hml] at h; simp at h
      | some bs =>
        rw [hml] at h
        simp at h
        subst h
        cases k with
        | zero =>
          simp only [List.getElem?_cons_zero, Option.some.injEq] at hk
          subst hk
          simp [hfa]
        | succ k =>
          simp only [List.getElem?_cons_succ] at hk ⊢
          exact ih bs hml k x hk

theorem build_mask_getElem (R D : ℕ) (file : List (List ℤ × List ℤ))
    (mask : List Grid) (h : build_mask R D file = some mask) (k : ℕ)
    (s : List ℤ × List ℤ) (hk : file[k]? = some s) :
    mask[k]? = build_shell R D (k + 1) s.1 s.2 := by
  unfold build_mask at h
  have henum : file.enum[k]? = some (k, s) := by
    rw [List.getElem?_enum, hk]
    rfl
  exact mapM_option_getElem _ file.enum mask h k (k, s) henum

/-- C8.  For every footprint whose listed bins lie inside shell `k+1`'s
bounds, `build_mask` fills for that shell a boolean array with
`(k+1) * maskra` rows and `(k+1) * maskdec` columns whose entries are True
exactly when the footprint lists that (RA bin, Dec bin) pair for the
shell, the Dec index being stored offset by `+90*(k+1)`; whenever
`build_mask` returns a mask at all, its `k`-th element is that array.
(An out-of-range listed bin instead raises an `IndexError` in the
write `mask[i-1][...][...] = True`, hence the bounds hypothesis.) -/
theorem build_mask_shells (R D : ℕ) (file : List (List ℤ × List ℤ)) (k : ℕ)
    (s : List ℤ × List ℤ) (hk : file[k]? = some s)
    (hin : ∀ rd ∈ s.1.zip s.2,
      (0 ≤ rd.1 ∧ rd.1 < (((k + 1) * R : ℕ) : ℤ)) ∧
      (0 ≤ rd.2 + 90 * ((k : ℤ) + 1) ∧
        rd.2 + 90 * ((k : ℤ) + 1) < (((k + 1) * D : ℕ) : ℤ))) :
    ∃ g, build_shell R D (k + 1) s.1 s.2 = some g ∧
      (∀ mask, build_mask R D file = some mask → mask[k]? = some g) ∧
      g.rows = (k + 1) * R ∧ g.cols = (k + 1) * D ∧
      ∀ a b : ℤ, (g.val a b = true ↔
        ∃ rd ∈ s.1.zip s.2, rd.1 = a ∧ rd.2 + 90 * ((k : ℤ) + 1) = b) := by
  have hoff : ∀ d : ℤ,
      d - ((k + 1 : ℕ) : ℤ) * dec_offset = d + 90 * ((k : ℤ) + 1) := by
    intro d
    unfold dec_offset
    push_cast
    ring
  have hin' : ∀ rd ∈ s.1.zip s.2,
      (0 ≤ rd.1 ∧ rd.1 < (((k + 1) * R : ℕ) : ℤ)) ∧
      (0 ≤ rd.2 - ((k + 1 : ℕ) : ℤ) * dec_offset ∧
        rd.2 - ((k + 1 : ℕ) : ℤ) * dec_offset < (((k + 1) * D : ℕ) : ℤ)) := by
    intro rd hrd
    rw [hoff]
    exact hin rd hrd
  obtain ⟨g, hg, hrows, hcols, hval⟩ :=
    build_shell_spec R D (k + 1) s.1 s.2 hin'
  refine ⟨g, hg, ?_, hrows, hcols, fun a b => ?_⟩
  · intro mask hm
    rw [build_mask_getElem R D file mask hm k s hk, hg]
  · rw [hval a b]
    constructor
    · rintro ⟨rd, hrd, h1, h2⟩
      exact ⟨rd, hrd, h1, by rw [← hoff rd.2]; exact h2⟩
    · rintro ⟨rd, hrd, h1, h2⟩
      exact ⟨rd, hrd, h1, by rw [hoff rd.2]; exact h2⟩

/-- Witness for C8: the footprint `[([2,5], [-30,7])]` with base
resolutions 360 × 180 builds successfully into one 360 × 180 shell whose
set bins are exactly (2, -30+90) and (5, 7+90). -/
theorem build_mask_shells_witness :
    ([([2, 5], [-30, 7])] : List (List ℤ × List ℤ))[0]? =
        some ([2, 5], [-30, 7]) ∧
    (∀ rd ∈ ([2, 5] : List ℤ).zip [-30, 7],
      (0 ≤ rd.1 ∧ rd.1 < (((0 + 1) * 360 : ℕ) : ℤ)) ∧
      (0 ≤ rd.2 + 90 * ((0 : ℤ) + 1) ∧
        rd.2 + 90 * ((0 : ℤ) + 1) < (((0 + 1) * 180 : ℕ) : ℤ))) ∧
    (∃ mask, build_mask 360 180 [([2, 5], [-30, 7])] = some mask) ∧
    (∃ g, build_shell 360 180 (0 + 1) [2, 5] [-30, 7] = some g ∧
      (∀ mask, build_mask 360 180 [([2, 5], [-30, 7])] = some mask →
        mask[0]? = some g) ∧
      g.rows = (0 + 1) * 360 ∧ g.cols = (0 + 1) * 180 ∧
      ∀ a b : ℤ, (g.val a b = true ↔
        ∃ rd ∈ ([2, 5] : List ℤ).zip [-30, 7],
          rd.1 = a ∧ rd.2 + 90 * ((0 : ℤ) + 1) = b)) := by
  have hin : ∀ rd ∈ ([2, 5] : List ℤ).zip [-30, 7],
      (0 ≤ rd.1 ∧ rd.1 < (((0 + 1) * 360 : ℕ) : ℤ)) ∧
      (0 ≤ rd.2 + 90 * ((0 : ℤ) + 1) ∧
        rd.2 + 90 * ((0 : ℤ) + 1) < (((0 + 1) * 180 : ℕ) : ℤ)) := by
    intro rd hrd
    simp only [List.zip_cons_cons, List.zip_nil_right, List.mem_cons,
      List.not_mem_nil, or_false] at hrd
    rcases hrd with rfl | rfl <;> norm_num
  obtain ⟨g, hg, hall, hrest⟩ :=
    build_mask_shells 360 180 [([2, 5], [-30, 7])] 0 ([2, 5], [-30, 7])
      rfl hin
  have hbuild : build_mask 360 180 [([2, 5], [-30, 7])] = some [g] := by
    unfold build_mask
    show ([((0 : ℕ), ([2, 5], [-30, 7]))] :
        List (ℕ × (List ℤ × List ℤ))).mapM _ = some [g]
    rw [List.mapM_cons, List.mapM_nil]
    simp only [Option.pure_def, Option.bind_eq_bind]
    rw [hg]
    rfl
  exact ⟨rfl, hin, ⟨[g], hbuild⟩, g, hg, hall, hrest⟩

/-! ## `in_survey` (lines 264-277)

The astropy table of coordinates is column-oriented: it is modelled as the
list of its columns (each a list of per-row values), zipped with the
per-column minimum and maximum limits.  `good` starts as `n_rows` copies
of True (`np.ones`), and each column's pass `and`s in the strict
comparisons `value > min` and `value < max` (lines 272-275). -/

/-- One pass of the `for name in coordinates.colnames` loop:
`good = np.all([good, check_min, check_max], axis=0)`. -/
def surveyCol (good : List Bool) (c : List ℚ × ℚ × ℚ) : List Bool :=
  (good.zip c.1).map
    (fun gv => gv.1 && (decide (c.2.1 < gv.2) && decide (gv.2 < c.2.2)))

/-- `in_survey` (lines 264-277): `nrows` is the number of table rows
(`len(coordinates)`). -/
def in_survey (cols : List (List ℚ)) (minl maxl : List ℚ) (nrows : ℕ) :
    List Bool :=
  (cols.zip (minl.zip maxl)).foldl surveyCol (List.replicate nrows true)

theorem surveyCol_getElem (good : List Bool) (c : List ℚ × ℚ × ℚ) (i : ℕ) :
    ((surveyCol good c)[i]? = some true ↔
      good[i]? = some true ∧ ∃ v, c.1[i]? = some v ∧ c.2.1 < v ∧ v < c.2.2) := by
  unfold surveyCol
  rw [List.getElem?_map]
  constructor
  · intro h
    rcases Option.map_eq_some'.1 h with ⟨⟨g, v⟩, hz, hb⟩
    rcases List.getElem?_zip_eq_some.1 hz with ⟨h1, h2⟩
    simp only [Bool.and_eq_true, decide_eq_true_eq] at hb
    exact ⟨by rw [h1, hb.1], v, h2, hb.2.1, hb.2.2⟩
  · rintro ⟨hg, v, hv, h1, h2⟩
    have hz : (good.zip c.1)[i]? = some (true, v) :=
      List.getElem?_zip_eq_some.2 ⟨hg, hv⟩
    rw [hz]
    simp [h1, h2]

theorem surveyCol_length (good : List Bool) (c : List ℚ × ℚ × ℚ) :
    (surveyCol good c).length = min good.length c.1.length := by
  simp [surveyCol]

theorem in_survey_foldl_length (L : List (List ℚ × ℚ × ℚ)) (acc : List Bool)
    (hlen : ∀ t ∈ L, t.1.length = acc.length) :
    (L.foldl surveyCol acc).length = acc.length := by
  induction L generalizing acc with
  | nil => rfl
  | cons x L ih =>
    rw [List.foldl_cons, ih]
    · rw [surveyCol_length, hlen x (List.mem_cons_self x L), min_self]
    · intro t ht
      rw [surveyCol_length, hlen x (List.mem_cons_self x L), min_self]
      exact hlen t (List.mem_cons_of_mem x ht)

theorem in_survey_foldl_true (L : List (List ℚ × ℚ × ℚ)) (acc : List Bool)
    (i : ℕ) (hlen : ∀ t ∈ L, t.1.length = acc.length) :
    ((L.foldl surveyCol acc)[i]? = some true ↔
      acc[i]? = some true ∧
        ∀ t ∈ L, ∃ v, t.1[i]? = some v ∧ t.2.1 < v ∧ v < t.2.2) := by
  induction L generalizing acc with
  | nil => simp
  | cons x L ih =>
    have hx : x.1.length = acc.length := hlen x (List.mem_cons_self x L)
    have hlen' : ∀ t ∈ L, t.1.length = (surveyCol acc x).length := by
      intro t ht
      rw [surveyCol_length, hx, min_self]
      exact hlen t (List.mem_cons_of_mem x ht)
    rw [List.foldl_cons, ih _ hlen', surveyCol_getElem]
    simp only [List.mem_cons]
    constructor
    · rintro ⟨⟨hg, hvx⟩, hrest⟩
      refine ⟨hg, ?_⟩
      rintro t (rfl | ht)
      · exact hvx
      · exact hrest t ht
    · rintro ⟨hg, hall⟩
      exact ⟨⟨hg, hall x (Or.inl rfl)⟩, fun t ht => hall t (Or.inr ht)⟩

/-- C10.  A row passes `in_survey` iff in every column its value is
strictly greater than that column's minimum limit and strictly less than
its maximum limit; a row whose value in some column equals a limit exactly
is excluded (the entry is `some false`, not `some true`). -/
theorem in_survey_strict (cols : List (List ℚ)) (minl maxl : List ℚ)
    (nrows i : ℕ) (hall : ∀ c ∈ cols, c.length = nrows) (hi : i < nrows) :
    ((in_survey cols minl maxl nrows)[i]? = some true ↔
      ∀ t ∈ cols.zip (minl.zip maxl),
        ∃ v, t.1[i]? = some v ∧ t.2.1 < v ∧ v < t.2.2) ∧
    (∀ t ∈ cols.zip (minl.zip maxl), ∀ v, t.1[i]? = some v →
      (v = t.2.1 ∨ v = t.2.2) →
        (in_survey cols minl maxl nrows)[i]? = some false) := by
  have hlen : ∀ t ∈ cols.zip (minl.zip maxl),
      t.1.length = (List.replicate nrows true).length := by
    intro t ht
    rw [List.length_replicate]
    exact hall t.1 (List.of_mem_zip ht).1
  have hiff := in_survey_foldl_true (cols.zip (minl.zip maxl))
    (List.replicate nrows true) i hlen
  have hrep : (List.replicate nrows true)[i]? = some true :=
    List.getElem?_replicate_of_lt hi
  have hmain : ((in_survey cols minl maxl nrows)[i]? = some true ↔
      ∀ t ∈ cols.zip (minl.zip maxl),
        ∃ v, t.1[i]? = some v ∧ t.2.1 < v ∧ v < t.2.2) := by
    rw [in_survey, hiff, hrep]
    simp
  refine ⟨hmain, ?_⟩
  intro t ht v hv heq
  have hne : ¬((in_survey cols minl maxl nrows)[i]? = some true) := by
    rw [hmain]
    intro hallv
    rcases hallv t ht with ⟨w, hw, h1, h2⟩
    rw [hv] at hw
    have hwv : v = w := Option.some.inj hw
    subst hwv
    rcases heq with rfl | rfl
    · exact lt_irrefl _ h1
    · exact lt_irrefl _ h2
  have hlt : i < (in_survey cols minl maxl nrows).length := by
    rw [in_survey, in_survey_foldl_length _ _ hlen, List.length_replicate]
    exact hi
  have hb := List.getElem?_eq_getElem hlt
  cases hval : (in_survey cols minl maxl nrows)[i] with
  | true => exact absurd (hval ▸ hb) hne
  | false => exact hval ▸ hb

/-- Witness for C10: columns x=[1,0], y=[5,20] with limits 0 < x < 10,
0 < y < 10: row 0 passes; and row 1, whose x value equals the minimum
limit 0, is excluded. -/
theorem in_survey_strict_witness :
    (((in_survey [[1, 0], [5, 20]] [0, 0] [10, 10] 2)[0]? = some true ↔
      ∀ t ∈ ([[1, 0], [5, 20]] : List (List ℚ)).zip
          (([0, 0] : List ℚ).zip [10, 10]),
        ∃ v, t.1[0]? = some v ∧ t.2.1 < v ∧ v < t.2.2) ∧
    (∀ t ∈ ([[1, 0], [5, 20]] : List (List ℚ)).zip
        (([0, 0] : List ℚ).zip [10, 10]), ∀ v, t.1[0]? = some v →
      (v = t.2.1 ∨ v = t.2.2) →
        (in_survey [[1, 0], [5, 20]] [0, 0] [10, 10] 2)[0]? = some false)) :=
  in_survey_strict [[1, 0], [5, 20]] [0, 0] [10, 10] 2 0
    (by
      intro c hc
      simp only [List.mem_cons, List.not_mem_nil, or_false] at hc
      rcases hc with rfl | rfl <;> rfl)
    (by norm_num)

/-! ## Mask containment: `in_mask` (lines 181-211) and `not_in_mask`
(lines 215-254)

The float computations are modelled over `ℝ`.  `np.linalg.norm` is the
Euclidean norm, `np.arctan` / `np.arcsin` are `Real.arctan` /
`Real.arcsin`, and Python's `int(...)` / numpy's `.astype(int)` is
truncation toward zero (`truncR`).  Two runtime behaviours are made
explicit:

* at `x = 0` numpy evaluates `y/x` to `sign(y)·inf` (with a warning, not
  an exception) and `arctan(±inf) = ±π/2`; the embedding encodes this IEEE
  behaviour as a case split in `raBase`;
* at `x = 0, y = 0` the quotient is NaN, and the later `int(...)` cast
  raises `ValueError`; an out-of-bounds numpy index raises `IndexError`.
  Both raised exceptions are modelled as `none`. -/

open scoped Classical

/-- `RtoD = 180./np.pi` (line 9). -/
noncomputable def RtoD : ℝ := 180 / Real.pi

/-- `DtoR = np.pi/180.` (line 10). -/
noncomputable def DtoR : ℝ := Real.pi / 180

/-- Python's `int(t)` on a real value: truncation toward zero. -/
noncomputable def truncR (t : ℝ) : ℤ := if 0 ≤ t then ⌊t⌋ else -⌊-t⌋

theorem truncR_of_nonneg {t : ℝ} (h : 0 ≤ t) : truncR t = ⌊t⌋ := if_pos h

theorem truncR_of_neg {t : ℝ} (h : t < 0) : truncR t = -⌊-t⌋ :=
  if_neg (not_le.2 h)

/-- `r = np.linalg.norm(coords)` (lines 193 / 240). -/
noncomputable def rOf (p : ℝ × ℝ × ℝ) : ℝ :=
  Real.sqrt (p.1 ^ 2 + p.2.1 ^ 2 + p.2.2 ^ 2)

/-- `ra = np.arctan(coords[1]/coords[0])*RtoD` (lines 195 / 246), with the
IEEE behaviour at `x = 0` (`arctan(±inf) = ±π/2`) written out. -/
noncomputable def raBase (x y : ℝ) : ℝ :=
  (if x = 0 then (if 0 < y then Real.pi / 2 else -(Real.pi / 2))
   else Real.arctan (y / x)) * RtoD

/-- `if coords[0] < 0 and coords[1] != 0: ra += 180` (lines 199-200 /
249-250). -/
noncomputable def raShift (x y : ℝ) : ℝ :=
  if x < 0 ∧ y ≠ 0 then raBase x y + 180 else raBase x y

/-- `if ra < 0: ra += 360` (lines 201 / 251-252). -/
noncomputable def raOf (x y : ℝ) : ℝ :=
  if raShift x y < 0 then raShift x y + 360 else raShift x y

/-- `dec = np.arcsin(coords[2]/r)*RtoD` (lines 196 / 247). -/
noncomputable def decOf (z r : ℝ) : ℝ := Real.arcsin (z / r) * RtoD

/-- `n = 1 + int(DtoR*r/10.)` (lines 194 / 245). -/
noncomputable def shellOf (r : ℝ) : ℤ := 1 + truncR (DtoR * r / 10)

/-- The RA bin index `int(n*ra)` (lines 206 / 254). -/
noncomputable def raIdxOf (p : ℝ × ℝ × ℝ) : ℤ :=
  truncR ((shellOf (rOf p) : ℝ) * raOf p.1 p.2.1)

/-- The Dec bin index `int(n*dec) - n*dec_offset` (lines 206 / 254). -/
noncomputable def decIdxOf (p : ℝ × ℝ × ℝ) : ℤ :=
  truncR ((shellOf (rOf p) : ℝ) * decOf p.2.2 (rOf p)) -
    shellOf (rOf p) * dec_offset

/-- `survey_mask[s][a][b]` with numpy bounds checking: `none` models the
raised `IndexError`.  (The indices reaching this lookup are nonnegative —
RA is normalized into `[0, 360)` and `|dec| ≤ 90` — so numpy's negative
wraparound is irrelevant and not modelled.) -/
def maskLookup (m : List Grid) (s : ℕ) (a b : ℤ) : Option Bool :=
  match m[s]? with
  | none => none
  | some g =>
    if 0 ≤ a ∧ a < (g.rows : ℤ) ∧ 0 ≤ b ∧ b < (g.cols : ℤ) then
      some (g.val a b)
    else none

/-- `not_in_mask` (lines 215-254): radial rejection first (lines
242-243), then the angular computation and the mask lookup (line 254);
`none` models the exceptions described above. -/
noncomputable def not_in_mask (p : ℝ × ℝ × ℝ) (mask : List Grid)
    (rmin rmax : ℝ) : Option Bool :=
  if rOf p < rmin ∨ rmax < rOf p then some true
  else if p.1 = 0 ∧ p.2.1 = 0 then none
  else
    match maskLookup mask (shellOf (rOf p) - 1).toNat (raIdxOf p)
        (decIdxOf p) with
    | none => none
    | some v => some (!v)

/-- One row of `in_mask` (lines 181-211): the mask lookup (line 206)
happens before the radial-limit conjunction (line 209). -/
noncomputable def in_mask_row (p : ℝ × ℝ × ℝ) (mask : List Grid)
    (rlims : ℝ × ℝ) : Option Bool :=
  if p.1 = 0 ∧ p.2.1 = 0 then none
  else
    match maskLookup mask (shellOf (rOf p) - 1).toNat (raIdxOf p)
        (decIdxOf p) with
    | none => none
    | some v =>
      some (v && (decide (rOf p ≤ rlims.2) && decide (rlims.1 ≤ rOf p)))

/-- `in_mask` (lines 181-211) over its list of coordinate rows. -/
noncomputable def in_mask : List (ℝ × ℝ × ℝ) → List Grid → ℝ × ℝ →
    Option (List Bool)
  | [], _, _ => some []
  | p :: ps, m, rl =>
    match in_mask_row p m rl, in_mask ps m rl with
    | some b, some bs => some (b :: bs)
    | _, _ => none

theorem RtoD_pos : 0 < RtoD :=
  div_pos (by norm_num) Real.pi_pos

theorem pi_half_mul_RtoD : Real.pi / 2 * RtoD = 90 := by
  unfold RtoD
  field_simp
  ring

theorem raBase_ge (x y : ℝ) : -90 ≤ raBase x y := by
  unfold raBase
  split
  · split
    · rw [pi_half_mul_RtoD]; norm_num
    · rw [neg_mul, pi_half_mul_RtoD]
  · have h := (Real.neg_pi_div_two_lt_arctan (y / x)).le
    calc (-90 : ℝ) = -(Real.pi / 2) * RtoD := by rw [neg_mul, pi_half_mul_RtoD]
    _ ≤ Real.arctan (y / x) * RtoD := by
        exact mul_le_mul_of_nonneg_right h RtoD_pos.le

theorem raShift_ge (x y : ℝ) : -90 ≤ raShift x y := by
  unfold raShift
  split
  · linarith [raBase_ge x y]
  · exact raBase_ge x y

theorem raOf_nonneg (x y : ℝ) : 0 ≤ raOf x y := by
  unfold raOf
  split
  · linarith [raShift_ge x y]
  · linarith [not_lt.1 (by assumption)]

/-- C3.  For every `x < 0` and `y ≠ 0` (both signs of `y`) the RA
computation adds 180° to `arctan(y/x)·(180/π)` before the final
normalization that adds 360° to negative values (`raShift` is exactly the
pre-normalization value of lines 199-200 / 249-250); the normalization
then leaves it unchanged — the value is already positive — so the
resulting RA equals `arctan(y/x)·(180/π) + 180` and lies strictly between
90° and 270°.  In particular every point with `x < 0, y > 0` gets an RA
strictly between 90° and 270°. -/
theorem raOf_neg_x (x y : ℝ) (hx : x < 0) (hy : y ≠ 0) :
    raShift x y = Real.arctan (y / x) * RtoD + 180 ∧
    raOf x y = Real.arctan (y / x) * RtoD + 180 ∧
    90 < raOf x y ∧ raOf x y < 270 := by
  have hx0 : x ≠ 0 := ne_of_lt hx
  have hbase : raBase x y = Real.arctan (y / x) * RtoD := by
    unfold raBase
    rw [if_neg hx0]
  have hb_lt : raBase x y < 90 := by
    rw [hbase]
    calc Real.arctan (y / x) * RtoD < Real.pi / 2 * RtoD :=
      mul_lt_mul_of_pos_right (Real.arctan_lt_pi_div_two _) RtoD_pos
    _ = 90 := pi_half_mul_RtoD
  have hb_gt : -90 < raBase x y := by
    rw [hbase]
    calc (-90 : ℝ) = -(Real.pi / 2) * RtoD := by rw [neg_mul, pi_half_mul_RtoD]
    _ < Real.arctan (y / x) * RtoD :=
      mul_lt_mul_of_pos_right (Real.neg_pi_div_two_lt_arctan _) RtoD_pos
  have hshift : raShift x y = raBase x y + 180 := by
    unfold raShift
    rw [if_pos ⟨hx, hy⟩]
  have hra : raOf x y = raShift x y := by
    unfold raOf
    rw [if_neg (not_lt.2 (by rw [hshift]; linarith))]
  refine ⟨by rw [hshift, hbase], by rw [hra, hshift, hbase], ?_, ?_⟩
  · rw [hra, hshift]
    linarith
  · rw [hra, hshift]
    linarith

/-- Witness for C3: both signs of `y`.  At `(-1, 1)` the RA is
`-45 + 180 = 135`; at `(-1, -1)` it is `45 + 180 = 225`; both strictly
between 90° and 270°. -/
theorem raOf_neg_x_witness :
    ((-1 : ℝ) < 0 ∧ (1 : ℝ) ≠ 0 ∧ (-1 : ℝ) ≠ 0) ∧
    (raShift (-1) 1 = Real.arctan (1 / (-1)) * RtoD + 180 ∧
      raOf (-1) 1 = Real.arctan (1 / (-1)) * RtoD + 180 ∧
      90 < raOf (-1) 1 ∧ raOf (-1) 1 < 270) ∧
    (raShift (-1) (-1) = Real.arctan ((-1) / (-1)) * RtoD + 180 ∧
      raOf (-1) (-1) = Real.arctan ((-1) / (-1)) * RtoD + 180 ∧
      90 < raOf (-1) (-1) ∧ raOf (-1) (-1) < 270) ∧
    raOf (-1) 1 = 135 ∧ raOf (-1) (-1) = 225 := by
  have h1 := raOf_neg_x (-1) 1 (by norm_num) (by norm_num)
  have h2 := raOf_neg_x (-1) (-1) (by norm_num) (by norm_num)
  have hpi := Real.pi_ne_zero
  refine ⟨⟨by norm_num, by norm_num, by norm_num⟩, h1, h2, ?_, ?_⟩
  · rw [h1.2.1, show (1 : ℝ) / (-1) = -1 by norm_num, Real.arctan_neg,
      Real.arctan_one]
    unfold RtoD
    field_simp
    ring
  · rw [h2.2.1, show (-1 : ℝ) / (-1) = 1 by norm_num, Real.arctan_one]
    unfold RtoD
    field_simp
    ring

/-- C4.  At `x = 0` the embedding's explicit case split (encoding numpy's
`y/0 = ±inf`, `arctan(±inf) = ±π/2`) makes the RA well defined: a point
with `x = 0, y > 0` gets RA = 90° and a point with `x = 0, y < 0` gets
RA = 270°. -/
theorem raOf_x_zero (y : ℝ) :
    (0 < y → raOf 0 y = 90) ∧ (y < 0 → raOf 0 y = 270) := by
  constructor
  · intro hy
    have hbase : raBase 0 y = 90 := by
      unfold raBase
      rw [if_pos rfl, if_pos hy, pi_half_mul_RtoD]
    have hshift : raShift 0 y = 90 := by
      unfold raShift
      rw [if_neg (by simp), hbase]
    unfold raOf
    rw [hshift, if_neg (by norm_num)]
  · intro hy
    have hbase : raBase 0 y = -90 := by
      unfold raBase
      rw [if_pos rfl, if_neg (not_lt.2 hy.le), neg_mul, pi_half_mul_RtoD]
    have hshift : raShift 0 y = -90 := by
      unfold raShift
      rw [if_neg (by simp), hbase]
    unfold raOf
    rw [hshift, if_pos (by norm_num)]
    norm_num

/-- Witness for C4: at `y = 1` and `y = -1`. -/
theorem raOf_x_zero_witness : raOf 0 1 = 90 ∧ raOf 0 (-1) = 270 :=
  ⟨(raOf_x_zero 1).1 (by norm_num), (raOf_x_zero (-1)).2 (by norm_num)⟩

/-! ### Evaluation helpers for concrete points -/

theorem DtoR_nonneg : 0 ≤ DtoR :=
  div_nonneg Real.pi_pos.le (by norm_num)

theorem rOf_nonneg (p : ℝ × ℝ × ℝ) : 0 ≤ rOf p := Real.sqrt_nonneg _

theorem rOf_x_axis (x : ℝ) (hx : 0 ≤ x) : rOf (x, 0, 0) = x := by
  unfold rOf
  simp only []
  rw [show x ^ 2 + (0:ℝ) ^ 2 + (0:ℝ) ^ 2 = x ^ 2 by ring, Real.sqrt_sq hx]

theorem raOf_y_zero (x : ℝ) (hx : x ≠ 0) : raOf x 0 = 0 := by
  have hbase : raBase x 0 = 0 := by
    unfold raBase
    rw [if_neg hx, zero_div, Real.arctan_zero, zero_mul]
  have hshift : raShift x 0 = 0 := by
    unfold raShift
    rw [if_neg (by simp), hbase]
  unfold raOf
  rw [hshift, if_neg (lt_irrefl 0)]

theorem decOf_zero (r : ℝ) : decOf 0 r = 0 := by
  unfold decOf
  rw [zero_div, Real.arcsin_zero, zero_mul]

theorem shellOf_nonneg_trunc (r : ℝ) (h : 0 ≤ r) :
    shellOf r = 1 + ⌊DtoR * r / 10⌋ := by
  unfold shellOf
  rw [truncR_of_nonneg (div_nonneg (mul_nonneg DtoR_nonneg h) (by norm_num))]

theorem shellOf_one_le (r : ℝ) (h : 0 ≤ r) : 1 ≤ shellOf r := by
  rw [shellOf_nonneg_trunc r h]
  have : 0 ≤ ⌊DtoR * r / 10⌋ :=
    Int.floor_nonneg.2 (div_nonneg (mul_nonneg DtoR_nonneg h) (by norm_num))
  omega

theorem shellOf_small (r : ℝ) (h0 : 0 ≤ r) (h : r ≤ 500) : shellOf r = 1 := by
  rw [shellOf_nonneg_trunc r h0]
  have hval : ⌊DtoR * r / 10⌋ = 0 := by
    rw [Int.floor_eq_zero_iff]
    constructor
    · exact div_nonneg (mul_nonneg DtoR_nonneg h0) (by norm_num)
    · unfold DtoR
      have hpi : Real.pi < 3.15 := Real.pi_lt_d2
      have hr : Real.pi * r ≤ 3.15 * 500 := by
        have := mul_le_mul hpi.le h h0 (by norm_num)
        linarith
      have heq : Real.pi / 180 * r / 10 = Real.pi * r / 1800 := by ring
      rw [heq, div_lt_one (by norm_num)]
      linarith
  omega

theorem raIdxOf_x_axis (x : ℝ) (hx : 0 < x) : raIdxOf (x, 0, 0) = 0 := by
  unfold raIdxOf
  simp only []
  rw [raOf_y_zero x hx.ne', mul_zero, truncR_of_nonneg le_rfl, Int.floor_zero]

theorem decIdxOf_x_axis (x : ℝ) (hx : 0 < x) :
    decIdxOf (x, 0, 0) = 90 * shellOf (rOf (x, 0, 0)) := by
  unfold decIdxOf
  simp only []
  rw [decOf_zero, mul_zero, truncR_of_nonneg le_rfl, Int.floor_zero]
  unfold dec_offset
  ring

/-- All-true survey mask shell of base shape 360 × 180. -/
def gridAll : Grid := ⟨360, 180, fun _ _ => true⟩

/-! ### C2: the bin-index formula of the containment tests -/

/-- C2 (amended).  For a point with well-defined angular computation
(`(x, y) ≠ (0, 0)`) whose norm lies within the radial limits, both
containment tests address the mask at shell `n = 1 + floor(DtoR·r/10)`,
RA bin `floor(n·ra)` and Dec bin `trunc(n·dec) + 90·n` (trunc = Python
`int`, truncation toward zero — floor only for the nonnegative shell and
RA quantities); `in_mask` returns the stored flag there, `not_in_mask` its
negation. -/
theorem not_in_mask_bin_indices (p : ℝ × ℝ × ℝ) (mask : List Grid)
    (rmin rmax : ℝ) (hxy : ¬(p.1 = 0 ∧ p.2.1 = 0))
    (h1 : rmin ≤ rOf p) (h2 : rOf p ≤ rmax) :
    shellOf (rOf p) = 1 + ⌊DtoR * rOf p / 10⌋ ∧
    raIdxOf p = ⌊(shellOf (rOf p) : ℝ) * raOf p.1 p.2.1⌋ ∧
    decIdxOf p = truncR ((shellOf (rOf p) : ℝ) * decOf p.2.2 (rOf p)) +
      90 * shellOf (rOf p) ∧
    in_mask_row p mask (rmin, rmax) =
      maskLookup mask (shellOf (rOf p) - 1).toNat (raIdxOf p) (decIdxOf p) ∧
    not_in_mask p mask rmin rmax =
      Option.map (fun v => !v)
        (maskLookup mask (shellOf (rOf p) - 1).toNat (raIdxOf p)
          (decIdxOf p)) := by
  refine ⟨shellOf_nonneg_trunc _ (rOf_nonneg p), ?_, ?_, ?_, ?_⟩
  · unfold raIdxOf
    have hn : (0 : ℝ) ≤ (shellOf (rOf p) : ℝ) := by
      have hzn : (0 : ℤ) ≤ shellOf (rOf p) := by
        have := shellOf_one_le (rOf p) (rOf_nonneg p)
        omega
      exact_mod_cast hzn
    exact truncR_of_nonneg (mul_nonneg hn (raOf_nonneg _ _))
  · unfold decIdxOf dec_offset
    ring
  · unfold in_mask_row
    rw [if_neg hxy]
    cases hL : maskLookup mask (shellOf (rOf p) - 1).toNat (raIdxOf p)
        (decIdxOf p) with
    | none => rfl
    | some v =>
      simp only [decide_eq_true (show rOf p ≤ (rmin, rmax).2 from h2),
        decide_eq_true (show (rmin, rmax).1 ≤ rOf p from h1),
        Bool.and_true]
  · unfold not_in_mask
    have hnr : ¬(rOf p < rmin ∨ rmax < rOf p) := by
      push_neg
      exact ⟨h1, h2⟩
    rw [if_neg hnr, if_neg hxy]
    cases hL : maskLookup mask (shellOf (rOf p) - 1).toNat (raIdxOf p)
        (decIdxOf p) with
    | none => rfl
    | some v => rfl

/-- Witness for C2 (amended): the point (1,0,0) with radial limits
[1, 2] (the norm sits exactly on the lower limit) and an all-true mask. -/
theorem not_in_mask_bin_indices_witness :
    (¬((1 : ℝ) = 0 ∧ (0 : ℝ) = 0)) ∧ (1 : ℝ) ≤ rOf (1, 0, 0) ∧
      rOf (1, 0, 0) ≤ 2 ∧
    (shellOf (rOf ((1 : ℝ), 0, 0)) = 1 + ⌊DtoR * rOf ((1 : ℝ), 0, 0) / 10⌋ ∧
     raIdxOf ((1 : ℝ), 0, 0) = ⌊(shellOf (rOf ((1 : ℝ), 0, 0)) : ℝ) * raOf 1 0⌋ ∧
     decIdxOf ((1 : ℝ), 0, 0) =
       truncR ((shellOf (rOf ((1 : ℝ), 0, 0)) : ℝ) * decOf 0 (rOf ((1 : ℝ), 0, 0))) +
         90 * shellOf (rOf ((1 : ℝ), 0, 0)) ∧
     in_mask_row ((1 : ℝ), 0, 0) [gridAll] (1, 2) =
       maskLookup [gridAll] (shellOf (rOf ((1 : ℝ), 0, 0)) - 1).toNat
         (raIdxOf ((1 : ℝ), 0, 0)) (decIdxOf ((1 : ℝ), 0, 0)) ∧
     not_in_mask ((1 : ℝ), 0, 0) [gridAll] 1 2 =
       Option.map (fun v => !v)
         (maskLookup [gridAll] (shellOf (rOf ((1 : ℝ), 0, 0)) - 1).toNat
           (raIdxOf ((1 : ℝ), 0, 0)) (decIdxOf ((1 : ℝ), 0, 0)))) := by
  have hr : rOf ((1 : ℝ), 0, 0) = 1 := rOf_x_axis 1 (by norm_num)
  exact ⟨by norm_num, by rw [hr], by rw [hr]; norm_num,
    not_in_mask_bin_indices ((1 : ℝ), 0, 0) [gridAll] 1 2
      (by norm_num) (by rw [hr]) (by rw [hr]; norm_num)⟩

/-! ### C2 counterexample: the Dec bin index truncates toward zero,
it is not a floor

At the point below the declination is exactly -22.5°, the shell index is
1, and the radial norm 2 lies inside the limits [0, 5].  The code indexes
Dec bin `int(-22.5) + 90 = -22 + 90 = 68`, whereas the claim's
`floor(-22.5) + 90 = -23 + 90 = 67`.  A mask that is True only at Dec bin
68 separates the two: the containment test returns the flag at 68 (True),
not the flag at the claimed floor-indexed bin 67 (False). -/

/-- Counterexample point: `(2·cos(π/8), 0, -2·sin(π/8))`, at distance 2
and declination -22.5°. -/
noncomputable def pC2 : ℝ × ℝ × ℝ :=
  (2 * Real.cos (Real.pi / 8), 0, -(2 * Real.sin (Real.pi / 8)))

/-- One-shell mask, True only at RA-row anything, Dec-column 68. -/
def gC2 : Grid := ⟨360, 180, fun _ b => decide (b = 68)⟩

theorem rOf_pC2 : rOf pC2 = 2 := by
  show Real.sqrt ((2 * Real.cos (Real.pi / 8)) ^ 2 + (0 : ℝ) ^ 2 +
    (-(2 * Real.sin (Real.pi / 8))) ^ 2) = 2
  have hs := Real.sin_sq_add_cos_sq (Real.pi / 8)
  have h4 : (2 * Real.cos (Real.pi / 8)) ^ 2 + (0 : ℝ) ^ 2 +
      (-(2 * Real.sin (Real.pi / 8))) ^ 2 = 4 := by nlinarith [hs]
  rw [h4, show (4 : ℝ) = 2 ^ 2 by norm_num, Real.sqrt_sq (by norm_num)]

theorem cos_pi_div_eight_pos : 0 < Real.cos (Real.pi / 8) :=
  Real.cos_pos_of_mem_Ioo
    ⟨by linarith [Real.pi_pos], by linarith [Real.pi_pos]⟩

theorem raOf_pC2 : raOf pC2.1 pC2.2.1 = 0 := by
  show raOf (2 * Real.cos (Real.pi / 8)) 0 = 0
  exact raOf_y_zero _ (mul_pos two_pos cos_pi_div_eight_pos).ne'

theorem decOf_pC2 : decOf pC2.2.2 (rOf pC2) = -22.5 := by
  rw [rOf_pC2]
  show decOf (-(2 * Real.sin (Real.pi / 8))) 2 = -22.5
  unfold decOf
  have h1 : (-(2 * Real.sin (Real.pi / 8))) / 2 = -Real.sin (Real.pi / 8) := by
    ring
  rw [h1, Real.arcsin_neg,
    Real.arcsin_sin (by linarith [Real.pi_pos]) (by linarith [Real.pi_pos])]
  unfold RtoD
  have hpi := Real.pi_ne_zero
  field_simp
  ring

theorem shellOf_pC2 : shellOf (rOf pC2) = 1 := by
  rw [rOf_pC2]
  exact shellOf_small 2 (by norm_num) (by norm_num)

theorem raIdxOf_pC2 : raIdxOf pC2 = 0 := by
  unfold raIdxOf
  rw [raOf_pC2, mul_zero, truncR_of_nonneg le_rfl, Int.floor_zero]

theorem decIdxOf_pC2 : decIdxOf pC2 = 68 := by
  unfold decIdxOf
  rw [decOf_pC2, shellOf_pC2]
  have h1 : ((1 : ℤ) : ℝ) * (-22.5 : ℝ) = -22.5 := by norm_num
  rw [h1, truncR_of_neg (by norm_num)]
  have h2 : ⌊-(-22.5 : ℝ)⌋ = 22 := by
    rw [show -(-22.5 : ℝ) = 22.5 by norm_num, Int.floor_eq_iff] <;> norm_num
  rw [h2]
  unfold dec_offset
  norm_num

theorem maskLookup_gC2_68 : maskLookup [gC2] 0 0 68 = some true := by
  norm_num [maskLookup, gC2]

theorem maskLookup_gC2_67 : maskLookup [gC2] 0 0 67 = some false := by
  norm_num [maskLookup, gC2]

theorem pC2_x_ne : ¬(pC2.1 = 0 ∧ pC2.2.1 = 0) := by
  intro h
  exact (mul_pos two_pos cos_pi_div_eight_pos).ne' h.1

theorem in_mask_row_pC2 : in_mask_row pC2 [gC2] (0, 5) = some true := by
  unfold in_mask_row
  rw [if_neg pC2_x_ne, raIdxOf_pC2, decIdxOf_pC2, shellOf_pC2,
    show ((1 : ℤ) - 1).toNat = 0 from rfl, maskLookup_gC2_68]
  rw [rOf_pC2]
  simp only [decide_eq_true (show (2 : ℝ) ≤ (0, (5 : ℝ)).2 by norm_num),
    decide_eq_true (show ((0 : ℝ), (5 : ℝ)).1 ≤ 2 by norm_num),
    Bool.and_true]

/-- C2 counterexample.  At `pC2` the containment tests (radius 2, limits
[0, 5], shell 1, RA bin 0) return the mask flag of Dec bin 68
(`int(-22.5) + 90`), which is True, whereas the mask flag of the bin named
by the claim's floor formula (`floor(-22.5) + 90 = 67`) is False: so the
tests do not return the stored flag of the floor-indexed bin. -/
theorem in_mask_floor_dec_counterexample :
    in_mask [pC2] [gC2] (0, 5) = some [true] ∧
    not_in_mask pC2 [gC2] 0 5 = some false ∧
    maskLookup [gC2] (shellOf (rOf pC2) - 1).toNat
      ⌊(shellOf (rOf pC2) : ℝ) * raOf pC2.1 pC2.2.1⌋
      (⌊(shellOf (rOf pC2) : ℝ) * decOf pC2.2.2 (rOf pC2)⌋ +
        90 * shellOf (rOf pC2)) = some false := by
  refine ⟨?_, ?_, ?_⟩
  · simp only [in_mask, in_mask_row_pC2]
  · unfold not_in_mask
    have hc : ¬(rOf pC2 < 0 ∨ 5 < rOf pC2) := by
      rw [rOf_pC2]
      push_neg
      norm_num
    rw [if_neg hc, if_neg pC2_x_ne, raIdxOf_pC2, decIdxOf_pC2, shellOf_pC2,
      show ((1 : ℤ) - 1).toNat = 0 from rfl, maskLookup_gC2_68]
    rfl
  · rw [shellOf_pC2, raOf_pC2, decOf_pC2,
      show ((1 : ℤ) - 1).toNat = 0 from rfl]
    have h1 : ⌊((1 : ℤ) : ℝ) * (0 : ℝ)⌋ = 0 := by norm_num
    have h2 : ⌊((1 : ℤ) : ℝ) * (-22.5 : ℝ)⌋ = -23 := by
      rw [show ((1 : ℤ) : ℝ) * (-22.5 : ℝ) = -22.5 by norm_num,
        Int.floor_eq_iff] <;> norm_num
    rw [h1, h2, show (-23 : ℤ) + 90 * 1 = 67 by norm_num, maskLookup_gC2_67]

/-! ### C5: radial rejection -/

/-- C5 (amended).  `not_in_mask` rejects a point whose norm is outside
the radial limits immediately: it returns `some true` for every mask,
without consulting it. -/
theorem not_in_mask_radial_reject (p : ℝ × ℝ × ℝ) (rmin rmax : ℝ)
    (h : rOf p < rmin ∨ rmax < rOf p) :
    ∀ mask : List Grid, not_in_mask p mask rmin rmax = some true := by
  intro mask
  unfold not_in_mask
  rw [if_pos h]

/-- Witness for C5 (amended): the point (2000, 0, 0) with limits [0, 100]
is rejected for the empty mask and for the one-shell mask alike. -/
theorem not_in_mask_radial_reject_witness :
    (rOf ((2000 : ℝ), 0, 0) < 0 ∨ (100 : ℝ) < rOf ((2000 : ℝ), 0, 0)) ∧
    not_in_mask ((2000 : ℝ), 0, 0) [] 0 100 = some true ∧
    not_in_mask ((2000 : ℝ), 0, 0) [gridAll] 0 100 = some true := by
  have hr : rOf ((2000 : ℝ), 0, 0) = 2000 := rOf_x_axis 2000 (by norm_num)
  have h : rOf ((2000 : ℝ), 0, 0) < 0 ∨ (100 : ℝ) < rOf ((2000 : ℝ), 0, 0) := by
    right
    rw [hr]
    norm_num
  exact ⟨h, not_in_mask_radial_reject _ _ _ h [],
    not_in_mask_radial_reject _ _ _ h [gridAll]⟩

theorem shellOf_2000 : shellOf (2000 : ℝ) = 4 := by
  rw [shellOf_nonneg_trunc 2000 (by norm_num)]
  have heq : DtoR * (2000 : ℝ) / 10 = Real.pi * 10 / 9 := by
    unfold DtoR
    ring
  have hval : ⌊DtoR * (2000 : ℝ) / 10⌋ = 3 := by
    rw [heq, Int.floor_eq_iff]
    constructor
    · have := Real.pi_gt_three
      push_cast
      rw [le_div_iff (by norm_num)]
      linarith
    · have := Real.pi_lt_d2
      push_cast
      rw [div_lt_iff (by norm_num)]
      linarith
  omega

/-- C5 counterexample.  `in_mask`, by contrast, performs the mask lookup
before applying the radial limits: at (2000, 0, 0) — norm 2000, far above
the limit 100 — it indexes shell 4 of a one-shell mask and raises
(`none`), instead of returning "outside" without reading the mask, while
`not_in_mask` rejects immediately. -/
theorem in_mask_radial_reads_mask_counterexample :
    (100 : ℝ) < rOf ((2000 : ℝ), 0, 0) ∧
    in_mask [((2000 : ℝ), 0, 0)] [gridAll] (0, 100) = none ∧
    not_in_mask ((2000 : ℝ), 0, 0) [gridAll] 0 100 = some true := by
  have hr : rOf ((2000 : ℝ), 0, 0) = 2000 := rOf_x_axis 2000 (by norm_num)
  refine ⟨by rw [hr]; norm_num, ?_, ?_⟩
  · have hrow : in_mask_row ((2000 : ℝ), 0, 0) [gridAll] (0, 100) = none := by
      unfold in_mask_row
      rw [if_neg (by norm_num), hr, shellOf_2000,
        show ((4 : ℤ) - 1).toNat = 3 from rfl]
      have hnone : maskLookup [gridAll] 3 (raIdxOf ((2000 : ℝ), 0, 0))
          (decIdxOf ((2000 : ℝ), 0, 0)) = none := by
        unfold maskLookup
        rfl
      rw [hnone]
    simp only [in_mask, hrow]
  · exact not_in_mask_radial_reject _ _ _ (by rw [hr]; norm_num) [gridAll]

/-! ### C9: `in_mask` is the pointwise negation of `not_in_mask` -/

/-- C9.  For a single coordinate row with nonzero x whose shell / angular
bin indices are within the mask bounds (the lookup succeeds), `in_mask`
returns exactly the negation of `not_in_mask`, at the radial boundaries
included. -/
theorem in_mask_negation_of_not_in_mask (p : ℝ × ℝ × ℝ) (mask : List Grid)
    (rmin rmax : ℝ) (v : Bool) (hx : p.1 ≠ 0)
    (hlook : maskLookup mask (shellOf (rOf p) - 1).toNat (raIdxOf p)
      (decIdxOf p) = some v) :
    ∃ b, in_mask [p] mask (rmin, rmax) = some [b] ∧
      not_in_mask p mask rmin rmax = some (!b) := by
  have hxy : ¬(p.1 = 0 ∧ p.2.1 = 0) := fun h => hx h.1
  refine ⟨v && (decide (rOf p ≤ rmax) && decide (rmin ≤ rOf p)), ?_, ?_⟩
  · have hrow : in_mask_row p mask (rmin, rmax) =
        some (v && (decide (rOf p ≤ rmax) && decide (rmin ≤ rOf p))) := by
      unfold in_mask_row
      rw [if_neg hxy, hlook]
    simp only [in_mask, hrow]
  · unfold not_in_mask
    by_cases hr : rOf p < rmin ∨ rmax < rOf p
    · rw [if_pos hr]
      rcases hr with hr | hr
      · rw [decide_eq_false (not_le.2 hr)]
        simp
      · rw [decide_eq_false (not_le.2 hr)]
        simp
    · rw [if_neg hr, if_neg hxy, hlook]
      push_neg at hr
      rw [decide_eq_true (show rOf p ≤ rmax from hr.2),
        decide_eq_true (show rmin ≤ rOf p from hr.1)]
      simp

/-- Witness for C9: the point (1,0,0) with the all-true one-shell mask
and radial limits [1, 2] (the norm sits exactly on the lower boundary):
`in_mask` yields `[true]`, `not_in_mask` yields `false`. -/
theorem in_mask_negation_of_not_in_mask_witness :
    (((1 : ℝ), (0 : ℝ), (0 : ℝ)).1 ≠ 0) ∧
    maskLookup [gridAll] (shellOf (rOf ((1 : ℝ), 0, 0)) - 1).toNat
      (raIdxOf ((1 : ℝ), 0, 0)) (decIdxOf ((1 : ℝ), 0, 0)) = some true ∧
    ∃ b, in_mask [((1 : ℝ), 0, 0)] [gridAll] (1, 2) = some [b] ∧
      not_in_mask ((1 : ℝ), 0, 0) [gridAll] 1 2 = some (!b) := by
  have hr : rOf ((1 : ℝ), 0, 0) = 1 := rOf_x_axis 1 (by norm_num)
  have hshell : shellOf (rOf ((1 : ℝ), 0, 0)) = 1 := by
    rw [hr]
    exact shellOf_small 1 (by norm_num) (by norm_num)
  have hraIdx : raIdxOf ((1 : ℝ), 0, 0) = 0 := raIdxOf_x_axis 1 (by norm_num)
  have hdecIdx : decIdxOf ((1 : ℝ), 0, 0) = 90 := by
    rw [decIdxOf_x_axis 1 (by norm_num), hshell]
    norm_num
  have hlook : maskLookup [gridAll] (shellOf (rOf ((1 : ℝ), 0, 0)) - 1).toNat
      (raIdxOf ((1 : ℝ), 0, 0)) (decIdxOf ((1 : ℝ), 0, 0)) = some true := by
    rw [hshell, hraIdx, hdecIdx, show ((1 : ℤ) - 1).toNat = 0 from rfl]
    norm_num [maskLookup, gridAll]
  exact ⟨by norm_num, hlook,
    in_mask_negation_of_not_in_mask ((1 : ℝ), 0, 0) [gridAll] 1 2 true
      (by norm_num) hlook⟩

end VoidFinder
